import Mathlib

/-!
Verification of the core of the google-drive-dl repository: the `drive` package in
src/main.go (recursive folder listing with path reconstruction, multi-root
aggregation, name filtering, and the download orchestrator with skip-if-exists
logic, per-file progress streaming and a bounded-concurrency admission gate).

The remote Drive service, the local filesystem and the download body stream are
external collaborators; they are modelled as explicit environments (`DriveEnv`,
`DlEnv`).  Goroutine interleaving in the aggregator and orchestrator makes the
order of merged results and collected errors nondeterministic in Go; the model
fixes URL order / file order, and all order-sensitive claims are stated through
order-insensitive membership.  Timestamps are carried as opaque strings (the Go
code parses them into time.Time; no verified property concerns them).
-/

/-! ## Data model (DriveFile, DownloadProgress — src/main.go lines 76-120) -/

/-- One child entry of a folder listing as returned by the remote service
(the `drive.File` fields requested by listFilesWithPath: id, name, size,
mimeType, createdTime, modifiedTime). -/
structure Child where
  id : String
  name : String
  size : Int
  mimeType : String
  createdTime : String
  modifiedTime : String
deriving DecidableEq

/-- DriveFile from src/main.go: a file from Google Drive with its metadata. -/
structure DriveFile where
  ID : String
  Name : String
  Path : String
  Size : Int
  FolderID : String
  MimeType : String
  CreatedTime : String
  ModifiedTime : String
deriving DecidableEq

/-- DriveFile.DisplayName: the name with path prefix if available. -/
def DriveFile.DisplayName (f : DriveFile) : String :=
  if f.Path ≠ "" then f.Path ++ "/" ++ f.Name else f.Name

/-- DownloadProgress from src/main.go.  The Go `error` value is modelled as an
optional message string. -/
structure DownloadProgress where
  FileID : String
  FileName : String
  BytesLoaded : Int
  TotalBytes : Int
  Done : Bool
  Skipped : Bool
  Error : Option String
deriving DecidableEq

/-- The MIME type that marks a child as a folder (a traversal node). -/
def folderMimeType : String := "application/vnd.google-apps.folder"

/-- DefaultMaxDepth from src/main.go. -/
def DefaultMaxDepth : Nat := 10

/-! ## Remote listing environment

`pages folderID` is the sequence of page results that the paginated
`Files.List` call chain (empty page token, then each `nextPageToken`) yields
for that folder; the chain is finite, ending when the token is empty.  A page
result is either the page's entries or the transport/API error of that fetch. -/

/-- The remote listing service, as consumed by the folder-tree walker. -/
structure DriveEnv where
  pages : String → List (Except String (List Child))

/-- The page loop of listFilesWithPath: fetch pages until the continuation
token is exhausted, concatenating entries; any page fetch error aborts the
whole call, wrapped as in Go with "unable to list files: ". -/
def pageLoop : List (Except String (List Child)) → Except String (List Child)
  | [] => .ok []
  | .error e :: _ => .error ("unable to list files: " ++ e)
  | .ok cs :: rest =>
    match pageLoop rest with
    | .error e => .error e
    | .ok more => .ok (cs ++ more)

/-- Conversion of a non-folder listing entry into a DriveFile
(listFilesWithPath, src/main.go lines 347-368). -/
def childToFile (folderID currentPath : String) (c : Child) : DriveFile :=
  { ID := c.id, Name := c.name, Path := currentPath, Size := c.size,
    FolderID := folderID, MimeType := c.mimeType,
    CreatedTime := c.createdTime, ModifiedTime := c.modifiedTime }

/-- The non-folder children of a listing, as DriveFiles at the current path
(folders are skipped by the `continue` in src/main.go line 344). -/
def directFiles (folderID currentPath : String) (children : List Child) : List DriveFile :=
  (children.filter (fun c => c.mimeType ≠ folderMimeType)).map (childToFile folderID currentPath)

/-- The folder children of a listing, queued for recursion as (id, name)
pairs (src/main.go lines 335-345). -/
def subfolderEntries (children : List Child) : List (String × String) :=
  (children.filter (fun c => c.mimeType = folderMimeType)).map (fun c => (c.id, c.name))

/-- Path reconstruction for a subfolder: subPath := name, or
currentPath + "/" + name when currentPath is non-empty (src/main.go 379-382). -/
def joinPath (currentPath name : String) : String :=
  if currentPath = "" then name else currentPath ++ "/" ++ name

/-- One iteration of the subfolder recursion loop (src/main.go lines 378-392):
a failed recursive call is recorded as a warning naming the subfolder's
reconstructed path and the loop continues; a successful call contributes its
files and warnings. -/
def subfolderStep (subPath : String) (r : Except String (List DriveFile × List String))
    (tail : List DriveFile × List String) : List DriveFile × List String :=
  match r with
  | .error e => (tail.1, ("subfolder '" ++ subPath ++ "': " ++ e) :: tail.2)
  | .ok (sfs, sws) => (sfs ++ tail.1, sws ++ tail.2)

/-- listFilesWithPath (src/main.go lines 308-395), indexed by the remaining
depth budget gas = maxDepth - currentDepth.  The Go code carries
(currentDepth, maxDepth) and queues a subfolder iff currentDepth < maxDepth,
which is exactly gas > 0; the recursive call at currentDepth + 1 runs at
gas - 1. -/
def listFilesWithPathGas (env : DriveEnv) :
    Nat → String → String → Except String (List DriveFile × List String)
  | 0, folderID, currentPath =>
    match pageLoop (env.pages folderID) with
    | .error e => .error e
    | .ok children => .ok (directFiles folderID currentPath children, [])
  | g + 1, folderID, currentPath =>
    match pageLoop (env.pages folderID) with
    | .error e => .error e
    | .ok children =>
      let sub := (subfolderEntries children).foldr
        (fun sf tail =>
          subfolderStep (joinPath currentPath sf.2)
            (listFilesWithPathGas env g sf.1 (joinPath currentPath sf.2)) tail)
        ([], [])
      .ok (directFiles folderID currentPath children ++ sub.1, sub.2)

/-- The subfolder recursion loop at depth budget g, as a standalone function
(definitionally the foldr inside listFilesWithPathGas). -/
def subfolderFold (env : DriveEnv) (g : Nat) (currentPath : String)
    (subs : List (String × String)) : List DriveFile × List String :=
  subs.foldr
    (fun sf tail =>
      subfolderStep (joinPath currentPath sf.2)
        (listFilesWithPathGas env g sf.1 (joinPath currentPath sf.2)) tail)
    ([], [])

/-- listFilesWithPath with the Go signature (currentDepth, maxDepth). -/
def listFilesWithPath (env : DriveEnv) (folderID currentPath : String)
    (currentDepth maxDepth : Nat) : Except String (List DriveFile × List String) :=
  listFilesWithPathGas env (maxDepth - currentDepth) folderID currentPath

/-- ListFilesRecursive (src/main.go lines 295-305): walk from the root at
depth 0; a fatal root failure returns no files; accumulated subfolder warnings
are folded into a "completed with warnings" error returned alongside the
files. -/
def ListFilesRecursive (env : DriveEnv) (folderID : String) (maxDepth : Nat) :
    List DriveFile × Option String :=
  match listFilesWithPath env folderID "" 0 maxDepth with
  | .error e => ([], some e)
  | .ok (files, warnings) =>
    if warnings = [] then (files, none)
    else (files, some ("completed with warnings: " ++ String.intercalate "; " warnings))

/-- ListFiles (src/main.go lines 283-293): the non-recursive-entry wrapper,
fixed at DefaultMaxDepth. -/
def ListFiles (env : DriveEnv) (folderID : String) : List DriveFile × Option String :=
  ListFilesRecursive env folderID DefaultMaxDepth

/-! ## ExtractFolderID (src/main.go lines 271-281)

The Go code matches the regex `/folders/([a-zA-Z0-9_-]+)` with
FindStringSubmatch: the leftmost position where the literal "/folders/" is
followed by at least one identifier character, capturing the maximal
identifier-character run there. -/

/-- A character of the regex class [a-zA-Z0-9_-]. -/
def isIDChar (c : Char) : Bool := c.isAlphanum || c = '_' || c = '-'

/-- The literal part of the folder-id pattern. -/
def foldersPat : List Char := "/folders/".data

/-- Whether a character list starts with an identifier character. -/
def headIsID : List Char → Bool
  | [] => false
  | c :: _ => isIDChar c

/-- The maximal leading run of identifier characters (the greedy `+` capture). -/
def takeIDRun : List Char → List Char
  | [] => []
  | c :: cs => if isIDChar c then c :: takeIDRun cs else []

/-- Leftmost match of `/folders/([a-zA-Z0-9_-]+)`: scan left to right for the
first spot where the literal pattern is followed by an identifier character,
and capture the greedy run there. -/
def findFolderID : List Char → Option (List Char)
  | [] => none
  | c :: cs =>
    if foldersPat.isPrefixOf (c :: cs) && headIsID ((c :: cs).drop foldersPat.length)
    then some (takeIDRun ((c :: cs).drop foldersPat.length))
    else findFolderID cs

/-- ExtractFolderID: extract the folder ID from a Google Drive URL, or report
the URL that failed to match. -/
def ExtractFolderID (url : String) : Except String String :=
  match findFolderID url.data with
  | some run => .ok (String.mk run)
  | none => .error ("could not extract folder ID from URL: " ++ url)

/-! ## Multi-root aggregator (ListFilesFromFoldersWithDepth, src/main.go 403-450)

Go walks the roots in concurrent goroutines merging into a mutex-protected
slice and an error channel; the merge order is nondeterministic.  The model
processes the roots in URL order; claims over it are stated through
membership, which is interleaving-independent. -/

/-- Go strings.TrimSpace: drop whitespace from both ends (modelled over the
character list; Unicode white space beyond Char.isWhitespace is abstracted). -/
def trimSpace (s : String) : String :=
  String.mk (((s.data.dropWhile Char.isWhitespace).reverse.dropWhile
    Char.isWhitespace).reverse)

/-- Go strings.ToLower (modelled with the per-character ASCII lowering). -/
def lowerString (s : String) : String := String.mk (s.data.map Char.toLower)

/-- The URLs a goroutine is actually spawned for: whitespace-trimmed, with
empty entries skipped (src/main.go lines 410-413). -/
def activeURLs (urls : List String) : List String :=
  (urls.map trimSpace).filter (fun u => u ≠ "")

/-- The body of one root's goroutine: extract the folder id (a failure is a
per-root error), walk it, and either contribute the files or a per-root error
"folder <id>: <err>"; note that a root whose walk returns files together with
a warnings error contributes the error, not the files. -/
def rootOutcome (env : DriveEnv) (maxDepth : Nat) (u : String) :
    Except String (List DriveFile) :=
  match ExtractFolderID u with
  | .error e => .error e
  | .ok folderID =>
    match ListFilesRecursive env folderID maxDepth with
    | (files, none) => .ok files
    | (_, some e) => .error ("folder " ++ folderID ++ ": " ++ e)

/-- All files contributed by succeeding roots. -/
def rootFiles (env : DriveEnv) (urls : List String) (maxDepth : Nat) : List DriveFile :=
  (activeURLs urls).flatMap (fun u =>
    match rootOutcome env maxDepth u with
    | .ok fs => fs
    | .error _ => [])

/-- All per-root error messages. -/
def rootErrors (env : DriveEnv) (urls : List String) (maxDepth : Nat) : List String :=
  (activeURLs urls).filterMap (fun u =>
    match rootOutcome env maxDepth u with
    | .ok _ => none
    | .error e => some e)

/-- ListFilesFromFoldersWithDepth: merge every succeeding root's files and, if
any root failed, pair them with a single error joining all per-root messages
with semicolons. -/
def ListFilesFromFoldersWithDepth (env : DriveEnv) (urls : List String)
    (maxDepth : Nat) : List DriveFile × Option String :=
  if rootErrors env urls maxDepth = [] then (rootFiles env urls maxDepth, none)
  else (rootFiles env urls maxDepth,
        some ("some folders failed: " ++
          String.intercalate "; " (rootErrors env urls maxDepth)))

/-- ListFilesFromFolders (src/main.go 397-400): depth fixed at 10. -/
def ListFilesFromFolders (env : DriveEnv) (urls : List String) :
    List DriveFile × Option String :=
  ListFilesFromFoldersWithDepth env urls 10

/-! ## FilterFiles (src/main.go lines 452-469) -/

/-- Substring containment on character lists (Go strings.Contains). -/
def containsSub (haystack needle : List Char) : Bool :=
  match haystack with
  | [] => needle.isEmpty
  | _ :: t => needle.isPrefixOf haystack || containsSub t needle

/-- The inner loop of FilterFiles: the lower-cased name contains some
lower-cased, whitespace-trimmed term as a substring (OR across terms). -/
def matchesAnyTerm (name : String) (searchTerms : List String) : Bool :=
  searchTerms.any (fun term =>
    containsSub (lowerString name).data (lowerString (trimSpace term)).data)

/-- The accumulation loop of FilterFiles, appending each matching file in
input order. -/
def filterFilesLoop (searchTerms : List String) : List DriveFile → List DriveFile
  | [] => []
  | f :: rest =>
    if matchesAnyTerm f.Name searchTerms then f :: filterFilesLoop searchTerms rest
    else filterFilesLoop searchTerms rest

/-- FilterFiles: identity on an empty term list, otherwise the matching
subsequence. -/
def FilterFiles (files : List DriveFile) (searchTerms : List String) : List DriveFile :=
  if searchTerms.length = 0 then files
  else filterFilesLoop searchTerms files

/-! ## Download orchestrator (src/main.go lines 471-619)

The filesystem and the remote transfer service are modelled by `DlEnv`:
`stat p` is the size of the regular file at path p (none when os.Stat fails),
`body id` is the outcome of the Files.Get(id).Download() call, and
`mkdirAllOK` / `createOK` say whether os.MkdirAll / os.Create succeed (their
OS error text is abstracted).  A body stream is the sequence of chunk sizes
the successive reads return, optionally terminated by a read error instead of
EOF; io.Copy writes each chunk it has read, so the bytes on disk afterwards
are the sum of the delivered chunks.  Write errors are not modelled
separately.  Events are the updates sent on the progress channel (the Go code
skips them when the channel is nil). -/

/-- Outcome of the Files.Get(id).Download() call and of the subsequent reads. -/
inductive BodyFetch where
  | fail (e : String)
  | stream (chunks : List Nat) (readErr : Option String)
deriving DecidableEq

/-- The download-side environment: local filesystem and remote transfer. -/
structure DlEnv where
  stat : String → Option Int
  body : String → BodyFetch
  mkdirAllOK : String → Bool
  createOK : String → Bool

/-- fullDestDir (src/main.go 474-477): destination directory including the
file's reconstructed subfolder path. -/
def fullDestDirFor (destDir : String) (f : DriveFile) : String :=
  if f.Path ≠ "" then destDir ++ "/" ++ f.Path else destDir

/-- destPath (src/main.go 479). -/
def destPathFor (destDir : String) (f : DriveFile) : String :=
  fullDestDirFor destDir f ++ "/" ++ f.Name

/-- Total bytes delivered by a chunk stream. -/
def sumChunks : List Nat → Int
  | [] => 0
  | n :: rest => (n : Int) + sumChunks rest

/-- The incremental updates of progressReader.Read (src/main.go 604-619):
bytesRead accumulates every read's n; an update is emitted after each read
with n > 0, carrying the cumulative count and the metadata total. -/
def progressEvents (fid fname : String) (total : Int) : Int → List Nat → List DownloadProgress
  | _, [] => []
  | acc, n :: rest =>
    let acc2 := acc + (n : Int)
    if 0 < n then
      ⟨fid, fname, acc2, total, false, false, none⟩ :: progressEvents fid fname total acc2 rest
    else progressEvents fid fname total acc2 rest

/-- The terminal update of the skip path (src/main.go 486-493). -/
def skipEvent (f : DriveFile) : DownloadProgress :=
  ⟨f.ID, f.DisplayName, f.Size, f.Size, true, true, none⟩

/-- The terminal update of a completed transfer (src/main.go 537-543). -/
def finalEvent (f : DriveFile) : DownloadProgress :=
  ⟨f.ID, f.DisplayName, f.Size, f.Size, true, false, none⟩

/-- Result of one DownloadFile call: the progress updates emitted, the Go
error return, and the number of bytes written to the destination file (none
when no file was created). -/
structure DlResult where
  events : List DownloadProgress
  error : Option String
  written : Option Int
deriving DecidableEq

/-- The transfer part of DownloadFile (src/main.go 499-546): download call,
subdirectory creation (only for a non-empty Path), file creation, chunk copy
with incremental progress, then the terminal update. -/
def transferPhase (env : DlEnv) (file : DriveFile) (destDir : String) : DlResult :=
  let fullDestDir := fullDestDirFor destDir file
  let destPath := destPathFor destDir file
  match env.body file.ID with
  | .fail e => ⟨[], some ("unable to download file: " ++ e), none⟩
  | .stream chunks readErr =>
    if file.Path ≠ "" ∧ env.mkdirAllOK fullDestDir = false then
      ⟨[], some ("unable to create directory " ++ fullDestDir), none⟩
    else if env.createOK destPath = false then
      ⟨[], some "unable to create file", none⟩
    else
      let evs := progressEvents file.ID file.DisplayName file.Size 0 chunks
      match readErr with
      | some e => ⟨evs, some ("unable to save file: " ++ e), some (sumChunks chunks)⟩
      | none => ⟨evs ++ [finalEvent file], none, some (sumChunks chunks)⟩

/-- DownloadFile (src/main.go 471-547): stat the destination first; when it
exists with exactly the record's size, emit the single skip update and do
nothing else; otherwise run the transfer. -/
def DownloadFile (env : DlEnv) (file : DriveFile) (destDir : String) : DlResult :=
  match env.stat (destPathFor destDir file) with
  | some sz =>
    if sz = file.Size then ⟨[skipEvent file], none, none⟩
    else transferPhase env file destDir
  | none => transferPhase env file destDir

/-- The filesystem after a DownloadFile call: when bytes were written to the
destination file, its stat size becomes the byte count written (os.Create
truncates); everything else is unchanged. -/
def statAfter (env : DlEnv) (file : DriveFile) (destDir : String) : String → Option Int :=
  fun p =>
    match (DownloadFile env file destDir).written with
    | some w => if p = destPathFor destDir file then some w else env.stat p
    | none => env.stat p

/-- The environment seen by a second run of the same download. -/
def envAfter (env : DlEnv) (file : DriveFile) (destDir : String) : DlEnv :=
  { env with stat := statAfter env file destDir }

/-- The admission-gate capacity DownloadFiles creates its semaphore channel
with (src/main.go 551-555): maxConcurrent, defaulted to 4 when ≤ 0. -/
def gateCapacity (maxConcurrent : Int) : Int :=
  if maxConcurrent ≤ 0 then 4 else maxConcurrent

/-- DownloadFiles (src/main.go 550-592), abstracted from goroutine
interleaving: the gate capacity it creates, and the aggregate error joining
the per-file failures "name: err" with semicolons (file order; Go's channel
order is nondeterministic). -/
def DownloadFiles (env : DlEnv) (files : List DriveFile) (destDir : String)
    (maxConcurrent : Int) : Int × Option String :=
  let cap := gateCapacity maxConcurrent
  let errs := files.filterMap (fun f =>
    match (DownloadFile env f destDir).error with
    | some e => some (f.Name ++ ": " ++ e)
    | none => none)
  (cap, if errs = [] then none
        else some ("some downloads failed: " ++ String.intercalate "; " errs))

/-! ## The admission gate as a transition system (src/main.go 555-577)

Each dispatched download goroutine performs `sem <- struct{}{}` (blocking
acquire) before its transfer and `defer func() { <-sem }()` (release on every
exit path, error or not).  A task is `idle` until its acquire succeeds,
`running` while it holds a slot, and `finished b` (b = whether it failed)
after the deferred release.  An acquire can only fire while fewer than the
gate capacity tasks are running — that is the semantics of sending on a
channel with that buffer size. -/

/-- Phase of one dispatched download task. -/
inductive TaskPhase where
  | idle : TaskPhase
  | running : TaskPhase
  | finished : Bool → TaskPhase
deriving DecidableEq

/-- Whether a task currently holds a gate slot (is in its transfer). -/
def holdsSlot : TaskPhase → Bool
  | .running => true
  | _ => false

/-- Number of simultaneously executing (non-terminal, slot-holding) transfers. -/
def runningCount (ts : List TaskPhase) : Nat := ts.countP holdsSlot

/-- One scheduler step of the download batch under gate capacity K. -/
inductive GateStep (K : Nat) : List TaskPhase → List TaskPhase → Prop where
  | acquire (ts : List TaskPhase) (i : Nat)
      (hi : ts.get? i = some TaskPhase.idle) (hK : runningCount ts < K) :
      GateStep K ts (ts.set i TaskPhase.running)
  | release (ts : List TaskPhase) (i : Nat) (failed : Bool)
      (hi : ts.get? i = some TaskPhase.running) :
      GateStep K ts (ts.set i (TaskPhase.finished failed))

/-- States reachable from a start state by scheduler steps. -/
inductive GateReach (K : Nat) (start : List TaskPhase) : List TaskPhase → Prop where
  | refl : GateReach K start start
  | step {mid next : List TaskPhase} :
      GateReach K start mid → GateStep K mid next → GateReach K start next

/-- The initial state of a batch of n dispatched tasks. -/
def initTasks (n : Nat) : List TaskPhase := List.replicate n TaskPhase.idle

/-! ## Concrete instances used to evaluate the verified statements -/

/-- A folder child named sub1 (to be walked via id s1). -/
def childSub1 : Child := ⟨"s1", "sub1", 0, folderMimeType, "", ""⟩

/-- A folder child named sub2 (to be walked via id s2). -/
def childSub2 : Child := ⟨"s2", "sub2", 0, folderMimeType, "", ""⟩

/-- A plain file child sitting directly in the root folder. -/
def childRootFile : Child := ⟨"f0", "rootfile.txt", 7, "text/plain", "", ""⟩

/-- A plain file child sitting inside sub2. -/
def childDeepFile : Child := ⟨"f2", "deep.txt", 3, "image/png", "", ""⟩

/-- A small remote tree: root contains two subfolders and one file; listing
s1 fails with a transport error; s2 contains one file. -/
def envWalk : DriveEnv :=
  { pages := fun fid =>
      if fid = "root" then [Except.ok [childSub1, childSub2, childRootFile]]
      else if fid = "s1" then [Except.error "boom"]
      else if fid = "s2" then [Except.ok [childDeepFile]]
      else [Except.ok []] }

/-- Two roots: a well-formed folder URL for s2 and a malformed one. -/
def urlsW : List String := ["https://drive.google.com/drive/folders/s2", "badurl"]

/-- A 1-byte file record used in the download counterexamples. -/
def cexFile : DriveFile := ⟨"f", "n.bin", "", 1, "p", "application/x-bin", "", ""⟩

/-- A download environment whose body stream delivers 2 bytes for a record
declaring size 1 (the remote metadata size and the body length disagree). -/
def cexEnv : DlEnv :=
  { stat := fun _ => none, body := fun _ => BodyFetch.stream [2] none,
    mkdirAllOK := fun _ => true, createOK := fun _ => true }

/-- A 5-byte file record used in the download witnesses. -/
def benignFile : DriveFile := ⟨"g", "ok.bin", "", 5, "p", "application/x-bin", "", ""⟩

/-- A well-behaved download environment: the body delivers exactly the
record's size (2 + 3 = 5 bytes). -/
def benignDl : DlEnv :=
  { stat := fun _ => none, body := fun _ => BodyFetch.stream [2, 3] none,
    mkdirAllOK := fun _ => true, createOK := fun _ => true }

/-- A file record used in the filter witness. -/
def fileReport : DriveFile := ⟨"a", "Report.pdf", "", 100, "x", "application/pdf", "", ""⟩

/-- A second file record used in the filter witness. -/
def fileNotes : DriveFile := ⟨"b", "notes.txt", "B", 10, "x", "text/plain", "", ""⟩

/-! ## Walker lemmas -/

/-- One-step unfolding of listFilesWithPathGas. -/
theorem listFilesWithPathGas_eq (env : DriveEnv) (gas : Nat) (fid path : String) :
    listFilesWithPathGas env gas fid path =
      match pageLoop (env.pages fid) with
      | .error e => .error e
      | .ok children =>
        match gas with
        | 0 => .ok (directFiles fid path children, [])
        | g + 1 =>
          .ok (directFiles fid path children ++
                 (subfolderFold env g path (subfolderEntries children)).1,
               (subfolderFold env g path (subfolderEntries children)).2) := by
  cases gas with
  | zero =>
    cases hpl : pageLoop (env.pages fid) <;>
      simp [listFilesWithPathGas, hpl]
  | succ g =>
    cases hpl : pageLoop (env.pages fid) <;>
      simp [listFilesWithPathGas, hpl, subfolderFold]

/-- A page-loop failure makes the whole call fail, at any depth budget. -/
theorem walk_pageErr (env : DriveEnv) (gas : Nat) (fid path E : String)
    (h : pageLoop (env.pages fid) = .error E) :
    listFilesWithPathGas env gas fid path = .error E := by
  rw [listFilesWithPathGas_eq, h]

/-- With the depth budget exhausted, a successful listing yields exactly the
direct non-folder children. -/
theorem walk_pageOk_zero (env : DriveEnv) (fid path : String) (cs : List Child)
    (h : pageLoop (env.pages fid) = .ok cs) :
    listFilesWithPathGas env 0 fid path = .ok (directFiles fid path cs, []) := by
  rw [listFilesWithPathGas_eq, h]

/-- With budget g + 1, a successful listing yields the direct children plus
the subfolder recursion at budget g. -/
theorem walk_pageOk_succ (env : DriveEnv) (g : Nat) (fid path : String) (cs : List Child)
    (h : pageLoop (env.pages fid) = .ok cs) :
    listFilesWithPathGas env (g + 1) fid path =
      .ok (directFiles fid path cs ++ (subfolderFold env g path (subfolderEntries cs)).1,
           (subfolderFold env g path (subfolderEntries cs)).2) := by
  rw [listFilesWithPathGas_eq, h]

/-- The subfolder loop on an empty queue. -/
theorem subfolderFold_nil (env : DriveEnv) (g : Nat) (path : String) :
    subfolderFold env g path [] = ([], []) := rfl

/-- The subfolder loop peels one queued subfolder. -/
theorem subfolderFold_cons (env : DriveEnv) (g : Nat) (path sid sname : String)
    (rest : List (String × String)) :
    subfolderFold env g path ((sid, sname) :: rest) =
      subfolderStep (joinPath path sname)
        (listFilesWithPathGas env g sid (joinPath path sname))
        (subfolderFold env g path rest) := rfl

/-- Files of any queued subfolder whose recursion succeeds survive the loop. -/
theorem subfolderFold_mem_files_of (env : DriveEnv) (g : Nat) (path : String)
    (subs : List (String × String)) (sid sname : String) (fs : List DriveFile)
    (ws : List String) (f : DriveFile)
    (hmem : (sid, sname) ∈ subs)
    (hok : listFilesWithPathGas env g sid (joinPath path sname) = .ok (fs, ws))
    (hf : f ∈ fs) : f ∈ (subfolderFold env g path subs).1 := by
  induction subs with
  | nil => cases hmem
  | cons hd tl ih =>
    obtain ⟨hid, hname⟩ := hd
    rw [subfolderFold_cons]
    rcases List.mem_cons.mp hmem with heq | htl
    · obtain ⟨h1, h2⟩ := Prod.mk.injEq .. ▸ heq
      subst h1; subst h2
      rw [hok]
      simp only [subfolderStep]
      exact List.mem_append.mpr (Or.inl hf)
    · have htail := ih htl
      cases hrec : listFilesWithPathGas env g hid (joinPath path hname) with
      | error e => simpa [subfolderStep] using htail
      | ok pr =>
        obtain ⟨sfs, sws⟩ := pr
        simp only [subfolderStep]
        exact List.mem_append.mpr (Or.inr htail)

/-- Every file produced by the loop comes from some queued subfolder whose
recursion succeeded. -/
theorem subfolderFold_mem_files_src (env : DriveEnv) (g : Nat) (path : String)
    (subs : List (String × String)) (f : DriveFile)
    (hf : f ∈ (subfolderFold env g path subs).1) :
    ∃ sid sname fs ws, (sid, sname) ∈ subs ∧
      listFilesWithPathGas env g sid (joinPath path sname) = .ok (fs, ws) ∧ f ∈ fs := by
  induction subs with
  | nil => simp [subfolderFold_nil] at hf
  | cons hd tl ih =>
    obtain ⟨hid, hname⟩ := hd
    rw [subfolderFold_cons] at hf
    cases hrec : listFilesWithPathGas env g hid (joinPath path hname) with
    | error e =>
      rw [hrec] at hf
      simp only [subfolderStep] at hf
      obtain ⟨sid, sname, fs, ws, hmem, hok, hfs⟩ := ih hf
      exact ⟨sid, sname, fs, ws, List.mem_cons_of_mem _ hmem, hok, hfs⟩
    | ok pr =>
      obtain ⟨sfs, sws⟩ := pr
      rw [hrec] at hf
      simp only [subfolderStep] at hf
      rcases List.mem_append.mp hf with hl | hr
      · exact ⟨hid, hname, sfs, sws, List.mem_cons_self .., hrec, hl⟩
      · obtain ⟨sid, sname, fs, ws, hmem, hok, hfs⟩ := ih hr
        exact ⟨sid, sname, fs, ws, List.mem_cons_of_mem _ hmem, hok, hfs⟩

/-- A queued subfolder whose recursion fails leaves its warning in the loop's
warning list. -/
theorem subfolderFold_warn (env : DriveEnv) (g : Nat) (path : String)
    (subs : List (String × String)) (sid sname e : String)
    (hmem : (sid, sname) ∈ subs)
    (herr : listFilesWithPathGas env g sid (joinPath path sname) = .error e) :
    ("subfolder '" ++ joinPath path sname ++ "': " ++ e) ∈ (subfolderFold env g path subs).2 := by
  induction subs with
  | nil => cases hmem
  | cons hd tl ih =>
    obtain ⟨hid, hname⟩ := hd
    rw [subfolderFold_cons]
    rcases List.mem_cons.mp hmem with heq | htl
    · obtain ⟨h1, h2⟩ := Prod.mk.injEq .. ▸ heq
      subst h1; subst h2
      rw [herr]
      simp only [subfolderStep]
      exact List.mem_cons_self ..
    · have htail := ih htl
      cases hrec : listFilesWithPathGas env g hid (joinPath path hname) with
      | error e2 =>
        simp only [subfolderStep]
        exact List.mem_cons_of_mem _ htail
      | ok pr =>
        obtain ⟨sfs, sws⟩ := pr
        simp only [subfolderStep]
        exact List.mem_append.mpr (Or.inr htail)

/-- Direct-file records carry the current path and are never folders. -/
theorem directFiles_mem (fid path : String) (cs : List Child) (f : DriveFile)
    (hf : f ∈ directFiles fid path cs) :
    f.Path = path ∧ ¬ f.MimeType = folderMimeType := by
  simp only [directFiles, List.mem_map, List.mem_filter] at hf
  obtain ⟨c, ⟨_, hcm⟩, rfl⟩ := hf
  refine ⟨rfl, ?_⟩
  simpa [childToFile] using of_decide_eq_true hcm

/-- A page-loop error always wraps the first failing page fetch's own error. -/
theorem pageLoop_error_src (ps : List (Except String (List Child))) (E : String)
    (h : pageLoop ps = .error E) :
    ∃ e0, Except.error e0 ∈ ps ∧ E = "unable to list files: " ++ e0 := by
  induction ps with
  | nil => simp [pageLoop] at h
  | cons hd tl ih =>
    cases hd with
    | error e =>
      simp only [pageLoop, Except.error.injEq] at h
      exact ⟨e, List.mem_cons_self .., h.symm⟩
    | ok cs =>
      simp only [pageLoop] at h
      cases hpl : pageLoop tl with
      | error e2 =>
        rw [hpl] at h
        simp only [Except.error.injEq] at h
        obtain ⟨e0, hmem, he⟩ := ih (by rw [hpl, h])
        exact ⟨e0, List.mem_cons_of_mem _ hmem, he⟩
      | ok more => rw [hpl] at h; simp at h

/-- The walk fails exactly when its own root page loop fails; recursion
failures are never fatal. -/
theorem walkGas_error_iff (env : DriveEnv) (gas : Nat) (fid path E : String) :
    listFilesWithPathGas env gas fid path = .error E ↔
      pageLoop (env.pages fid) = .error E := by
  constructor
  · intro h
    cases hpl : pageLoop (env.pages fid) with
    | error e =>
      rw [walk_pageErr env gas fid path e hpl] at h
      cases h
      rfl
    | ok cs =>
      cases gas with
      | zero => rw [walk_pageOk_zero env fid path cs hpl] at h; cases h
      | succ g => rw [walk_pageOk_succ env g fid path cs hpl] at h; cases h
  · exact walk_pageErr env gas fid path E

/-- With the depth budget exhausted the walk is the page loop followed by the
direct-children projection: no recursion, no warnings, no extra failure. -/
theorem walk_depth_exhausted (env : DriveEnv) (fid path : String) :
    listFilesWithPathGas env 0 fid path =
      (pageLoop (env.pages fid)).map (fun cs => (directFiles fid path cs, [])) := by
  cases hpl : pageLoop (env.pages fid) with
  | error e => rw [walk_pageErr env 0 fid path e hpl]; rfl
  | ok cs => rw [walk_pageOk_zero env fid path cs hpl]; rfl

/-- No walk result ever contains a folder-typed record, at any depth budget. -/
theorem walkGas_no_folder :
    ∀ (gas : Nat) (env : DriveEnv) (fid path : String) (files : List DriveFile)
      (warns : List String),
      listFilesWithPathGas env gas fid path = .ok (files, warns) →
      ∀ f ∈ files, ¬ f.MimeType = folderMimeType := by
  intro gas
  induction gas with
  | zero =>
    intro env fid path files warns h f hf
    cases hpl : pageLoop (env.pages fid) with
    | error e => rw [walk_pageErr env 0 fid path e hpl] at h; cases h
    | ok cs =>
      rw [walk_pageOk_zero env fid path cs hpl] at h
      obtain ⟨h1, _⟩ := Prod.mk.injEq .. ▸ (Except.ok.injEq .. ▸ h)
      subst h1
      exact (directFiles_mem fid path cs f hf).2
  | succ g ih =>
    intro env fid path files warns h f hf
    cases hpl : pageLoop (env.pages fid) with
    | error e => rw [walk_pageErr env (g + 1) fid path e hpl] at h; cases h
    | ok cs =>
      rw [walk_pageOk_succ env g fid path cs hpl] at h
      obtain ⟨h1, _⟩ := Prod.mk.injEq .. ▸ (Except.ok.injEq .. ▸ h)
      subst h1
      rcases List.mem_append.mp hf with hd | hsub
      · exact (directFiles_mem fid path cs f hd).2
      · obtain ⟨sid, sname, fs, ws, _, hok, hfs⟩ :=
          subfolderFold_mem_files_src env g path (subfolderEntries cs) f hsub
        exact ih env sid (joinPath path sname) fs ws hok f hfs

/-- Claim C8: over every walk of every folder tree at every depth bound, no
folder ever appears as a FileRecord in the returned sequence — every
folder-typed child is only a traversal node, never an element of the file
list. -/
theorem claimC8_no_folder_in_walk_results (env : DriveEnv) (fid path : String)
    (d m : Nat) (files : List DriveFile) (warns : List String)
    (h : listFilesWithPath env fid path d m = .ok (files, warns)) :
    ∀ f ∈ files, ¬ f.MimeType = folderMimeType :=
  walkGas_no_folder (m - d) env fid path files warns h

/-- Witness for claim C8 on the concrete tree envWalk: the walk from "root"
at maxDepth 2 succeeds with two records, neither of which is folder-typed. -/
theorem claimC8_witness :
    ¬ (childToFile "root" "" childRootFile).MimeType = folderMimeType ∧
    ¬ (childToFile "s2" "sub2" childDeepFile).MimeType = folderMimeType :=
  ⟨claimC8_no_folder_in_walk_results envWalk "root" "" 0 2
     [childToFile "root" "" childRootFile, childToFile "s2" "sub2" childDeepFile]
     ["subfolder 'sub1': unable to list files: boom"] (by rfl)
     (childToFile "root" "" childRootFile) (by decide),
   claimC8_no_folder_in_walk_results envWalk "root" "" 0 2
     [childToFile "root" "" childRootFile, childToFile "s2" "sub2" childDeepFile]
     ["subfolder 'sub1': unable to list files: boom"] (by rfl)
     (childToFile "s2" "sub2" childDeepFile) (by decide)⟩

/-- Claim C2: in every walk, a failure of a subfolder's recursive listing is
captured as a warning that references that subfolder's reconstructed relative
path while the remaining sibling subfolders are still processed (their files
appear in the result); only a failure of the root listing call itself is
returned as an error, and that error carries the underlying transport/API
error message. -/
theorem claimC2_subfolder_failure_is_warning_root_failure_is_fatal
    (env : DriveEnv) (fid path : String) (d m : Nat) :
    (∀ E, listFilesWithPath env fid path d m = .error E →
        pageLoop (env.pages fid) = .error E ∧
          ∃ e0, Except.error e0 ∈ env.pages fid ∧ E = "unable to list files: " ++ e0)
    ∧ (∀ E, pageLoop (env.pages fid) = .error E →
        listFilesWithPath env fid path d m = .error E)
    ∧ (∀ children sid sname e, d < m →
        pageLoop (env.pages fid) = .ok children →
        (sid, sname) ∈ subfolderEntries children →
        listFilesWithPath env sid (joinPath path sname) (d + 1) m = .error e →
        ∃ files warns, listFilesWithPath env fid path d m = .ok (files, warns) ∧
          ("subfolder '" ++ joinPath path sname ++ "': " ++ e) ∈ warns ∧
          ∀ sid2 sname2 fs2 ws2, (sid2, sname2) ∈ subfolderEntries children →
            listFilesWithPath env sid2 (joinPath path sname2) (d + 1) m = .ok (fs2, ws2) →
            ∀ f ∈ fs2, f ∈ files) := by
  refine ⟨?_, ?_, ?_⟩
  · intro E h
    have hpl := (walkGas_error_iff env (m - d) fid path E).mp h
    exact ⟨hpl, pageLoop_error_src (env.pages fid) E hpl⟩
  · intro E h
    exact (walkGas_error_iff env (m - d) fid path E).mpr h
  · intro children sid sname e hdm hpl hmem herr
    have hgas : m - d = (m - (d + 1)) + 1 := by omega
    have hmain :
        listFilesWithPath env fid path d m =
          .ok (directFiles fid path children ++
                 (subfolderFold env (m - (d + 1)) path (subfolderEntries children)).1,
               (subfolderFold env (m - (d + 1)) path (subfolderEntries children)).2) := by
      show listFilesWithPathGas env (m - d) fid path = _
      rw [hgas]
      exact walk_pageOk_succ env (m - (d + 1)) fid path children hpl
    refine ⟨_, _, hmain, ?_, ?_⟩
    · exact subfolderFold_warn env (m - (d + 1)) path (subfolderEntries children)
        sid sname e hmem herr
    · intro sid2 sname2 fs2 ws2 hmem2 hok2 f hf
      exact List.mem_append.mpr (Or.inr
        (subfolderFold_mem_files_of env (m - (d + 1)) path (subfolderEntries children)
          sid2 sname2 fs2 ws2 f hmem2 hok2 hf))

/-- Witness for claim C2 on envWalk: walking "root" with maxDepth 2, the
failing subfolder sub1 leaves a warning naming its path while sub2's file is
still collected. -/
theorem claimC2_witness :
    ∃ files warns, listFilesWithPath envWalk "root" "" 0 2 = .ok (files, warns) ∧
      ("subfolder '" ++ joinPath "" "sub1" ++ "': " ++ "unable to list files: boom") ∈ warns ∧
      ∀ sid2 sname2 fs2 ws2,
        (sid2, sname2) ∈ subfolderEntries [childSub1, childSub2, childRootFile] →
        listFilesWithPath envWalk sid2 (joinPath "" sname2) (0 + 1) 2 = .ok (fs2, ws2) →
        ∀ f ∈ fs2, f ∈ files :=
  (claimC2_subfolder_failure_is_warning_root_failure_is_fatal envWalk "root" "" 0 2).2.2
    [childSub1, childSub2, childRootFile] "s1" "sub1" "unable to list files: boom"
    (by decide) (by rfl) (by decide) (by rfl)

/-- Claim C3: the walk recurses into a child folder (at path
parentPath/childName) exactly when the current depth is strictly below
maxDepth; once the depth budget is exhausted the walk returns only the direct
non-folder children — subfolders are silently dropped with no error and no
recursion (the result does not depend on the environment outside the current
folder) — and in particular maxDepth = 0 returns only root-level files with
empty relative path. -/
theorem claimC3_depth_bound_controls_recursion (env env2 : DriveEnv)
    (fid path : String) (d m : Nat) :
    (m ≤ d → listFilesWithPath env fid path d m =
        (pageLoop (env.pages fid)).map (fun cs => (directFiles fid path cs, [])))
    ∧ (m ≤ d → env.pages fid = env2.pages fid →
        listFilesWithPath env fid path d m = listFilesWithPath env2 fid path d m)
    ∧ (∀ children sid sname fs ws, d < m →
        pageLoop (env.pages fid) = .ok children →
        (sid, sname) ∈ subfolderEntries children →
        listFilesWithPath env sid (joinPath path sname) (d + 1) m = .ok (fs, ws) →
        ∃ files warns, listFilesWithPath env fid path d m = .ok (files, warns) ∧
          ∀ f ∈ fs, f ∈ files)
    ∧ (∀ children, pageLoop (env.pages fid) = .ok children →
        listFilesWithPath env fid "" 0 0 = .ok (directFiles fid "" children, []) ∧
        ∀ f ∈ directFiles fid "" children, f.Path = "") := by
  refine ⟨?_, ?_, ?_, ?_⟩
  · intro hle
    have h0 : m - d = 0 := Nat.sub_eq_zero_of_le hle
    show listFilesWithPathGas env (m - d) fid path = _
    rw [h0]
    exact walk_depth_exhausted env fid path
  · intro hle hpg
    have h0 : m - d = 0 := Nat.sub_eq_zero_of_le hle
    show listFilesWithPathGas env (m - d) fid path = listFilesWithPathGas env2 (m - d) fid path
    rw [h0, walk_depth_exhausted env fid path, walk_depth_exhausted env2 fid path, hpg]
  · intro children sid sname fs ws hdm hpl hmem hok
    have hgas : m - d = (m - (d + 1)) + 1 := by omega
    have hmain :
        listFilesWithPath env fid path d m =
          .ok (directFiles fid path children ++
                 (subfolderFold env (m - (d + 1)) path (subfolderEntries children)).1,
               (subfolderFold env (m - (d + 1)) path (subfolderEntries children)).2) := by
      show listFilesWithPathGas env (m - d) fid path = _
      rw [hgas]
      exact walk_pageOk_succ env (m - (d + 1)) fid path children hpl
    refine ⟨_, _, hmain, ?_⟩
    intro f hf
    exact List.mem_append.mpr (Or.inr
      (subfolderFold_mem_files_of env (m - (d + 1)) path (subfolderEntries children)
        sid sname fs ws f hmem hok hf))
  · intro children hpl
    refine ⟨walk_pageOk_zero env fid "" children hpl, ?_⟩
    intro f hf
    exact (directFiles_mem fid "" children f hf).1

/-- Witness for claim C3 on envWalk: at maxDepth 0 the walk from "root"
returns exactly its direct file with empty path, and at maxDepth 2 the
recursion into sub2 contributes its file. -/
theorem claimC3_witness :
    (listFilesWithPath envWalk "root" "" 0 0 =
        .ok (directFiles "root" "" [childSub1, childSub2, childRootFile], []) ∧
      ∀ f ∈ directFiles "root" "" [childSub1, childSub2, childRootFile], f.Path = "")
    ∧ ∃ files warns, listFilesWithPath envWalk "root" "" 0 2 = .ok (files, warns) ∧
        ∀ f ∈ [childToFile "s2" "sub2" childDeepFile], f ∈ files :=
  ⟨(claimC3_depth_bound_controls_recursion envWalk envWalk "root" "" 0 0).2.2.2
      [childSub1, childSub2, childRootFile] (by rfl),
   (claimC3_depth_bound_controls_recursion envWalk envWalk "root" "" 0 2).2.2.1
      [childSub1, childSub2, childRootFile] "s2" "sub2"
      [childToFile "s2" "sub2" childDeepFile] [] (by decide) (by rfl) (by decide) (by rfl)⟩

/-! ## Aggregator lemmas -/

/-- The merged file list of the aggregator, independent of whether an error is
also returned. -/
theorem aggregator_fst (env : DriveEnv) (urls : List String) (m : Nat) :
    (ListFilesFromFoldersWithDepth env urls m).1 = rootFiles env urls m := by
  unfold ListFilesFromFoldersWithDepth
  split <;> rfl

/-- A succeeding root's files are all in the merged accumulator. -/
theorem mem_rootFiles_of_ok (env : DriveEnv) (m : Nat) (urls : List String)
    (u : String) (files : List DriveFile) (f : DriveFile)
    (hu : u ∈ activeURLs urls) (hok : rootOutcome env m u = .ok files)
    (hf : f ∈ files) : f ∈ rootFiles env urls m := by
  refine List.mem_flatMap.mpr ⟨u, hu, ?_⟩
  rw [hok]
  exact hf

/-- The collected error list holds exactly the per-root error messages. -/
theorem mem_rootErrors_iff (env : DriveEnv) (urls : List String) (m : Nat)
    (e : String) :
    e ∈ rootErrors env urls m ↔
      ∃ u, u ∈ activeURLs urls ∧ rootOutcome env m u = .error e := by
  unfold rootErrors
  rw [List.mem_filterMap]
  constructor
  · rintro ⟨u, hu, hm⟩
    cases ho : rootOutcome env m u with
    | error e2 =>
      rw [ho] at hm
      simp only [Option.some.injEq] at hm
      exact ⟨u, hu, by rw [ho, hm]⟩
    | ok fs => rw [ho] at hm; cases hm
  · rintro ⟨u, hu, ho⟩
    exact ⟨u, hu, by rw [ho]⟩

/-- Claim C1: the aggregator returns every FileRecord collected from the
roots that succeeded, regardless of other roots failing (a succeeded root's
records are never discarded because another root failed), and when any root
fails it additionally returns a single error joining all per-root error
messages with semicolons ("some folders failed: " prefix). -/
theorem claimC1_aggregator_keeps_partial_results (env : DriveEnv)
    (urls : List String) (m : Nat) :
    (∀ u, u ∈ activeURLs urls → ∀ files, rootOutcome env m u = .ok files →
        ∀ f ∈ files, f ∈ (ListFilesFromFoldersWithDepth env urls m).1)
    ∧ (∀ e, e ∈ rootErrors env urls m ↔
        ∃ u, u ∈ activeURLs urls ∧ rootOutcome env m u = .error e)
    ∧ (rootErrors env urls m ≠ [] →
        (ListFilesFromFoldersWithDepth env urls m).2 =
          some ("some folders failed: " ++
            String.intercalate "; " (rootErrors env urls m)))
    ∧ (rootErrors env urls m = [] →
        (ListFilesFromFoldersWithDepth env urls m).2 = none) := by
  refine ⟨?_, mem_rootErrors_iff env urls m, ?_, ?_⟩
  · intro u hu files hok f hf
    rw [aggregator_fst]
    exact mem_rootFiles_of_ok env m urls u files f hu hok hf
  · intro hne
    unfold ListFilesFromFoldersWithDepth
    simp only [if_neg hne]
  · intro heq
    unfold ListFilesFromFoldersWithDepth
    simp only [if_pos heq]

/-- Witness for claim C1 on envWalk and urlsW: the good root s2 contributes
its file even though the second URL is malformed, and the returned error
joins the per-root messages. -/
theorem claimC1_witness :
    childToFile "s2" "" childDeepFile ∈ (ListFilesFromFoldersWithDepth envWalk urlsW 2).1
    ∧ (ListFilesFromFoldersWithDepth envWalk urlsW 2).2 =
        some ("some folders failed: " ++
          String.intercalate "; " (rootErrors envWalk urlsW 2)) :=
  ⟨(claimC1_aggregator_keeps_partial_results envWalk urlsW 2).1
      "https://drive.google.com/drive/folders/s2" (by decide)
      [childToFile "s2" "" childDeepFile] (by rfl)
      (childToFile "s2" "" childDeepFile) (by decide),
   (claimC1_aggregator_keeps_partial_results envWalk urlsW 2).2.2.1 (by decide)⟩

/-! ## ExtractFolderID lemmas -/

/-- The greedy run is made of identifier characters and is followed by a
non-identifier boundary. -/
theorem takeIDRun_decomp (l : List Char) :
    (∀ ch ∈ takeIDRun l, isIDChar ch = true) ∧
    ∃ rest, l = takeIDRun l ++ rest ∧ headIsID rest = false := by
  induction l with
  | nil => exact ⟨by simp [takeIDRun], [], rfl, rfl⟩
  | cons c cs ih =>
    cases hc : isIDChar c with
    | false =>
      refine ⟨?_, c :: cs, ?_, ?_⟩
      · intro ch hch; simp only [takeIDRun, hc] at hch; cases hch
      · simp only [takeIDRun, hc]; rfl
      · simpa [headIsID] using hc
    | true =>
      obtain ⟨hall, rest, heq, hrest⟩ := ih
      refine ⟨?_, rest, ?_, hrest⟩
      · intro ch hch
        simp only [takeIDRun, hc, if_true] at hch
        rcases List.mem_cons.mp hch with rfl | h2
        · exact hc
        · exact hall ch h2
      · simp only [takeIDRun, hc, if_true, List.cons_append]
        exact congrArg (c :: ·) heq

/-- The greedy run is non-empty when it starts at an identifier character. -/
theorem takeIDRun_ne_nil (l : List Char) (h : headIsID l = true) :
    takeIDRun l ≠ [] := by
  cases l with
  | nil => cases h
  | cons c cs =>
    have hc : isIDChar c = true := h
    simp [takeIDRun, hc]

/-- Scanner unfolding on a non-empty input. -/
theorem findFolderID_cons (x : Char) (xs : List Char) :
    findFolderID (x :: xs) =
      if foldersPat.isPrefixOf (x :: xs) && headIsID ((x :: xs).drop foldersPat.length)
      then some (takeIDRun ((x :: xs).drop foldersPat.length))
      else findFolderID xs := rfl

/-- A position where the pattern matches makes the scanner capture there. -/
theorem findFolderID_pos (s : List Char)
    (hpre : foldersPat.isPrefixOf s = true)
    (hhead : headIsID (s.drop foldersPat.length) = true) :
    findFolderID s = some (takeIDRun (s.drop foldersPat.length)) := by
  cases s with
  | nil => exact absurd hpre (by decide)
  | cons x xs => rw [findFolderID_cons, hpre, hhead]; rfl

/-- A position where the pattern does not match makes the scanner advance. -/
theorem findFolderID_neg (x : Char) (xs : List Char)
    (h : (foldersPat.isPrefixOf (x :: xs) &&
           headIsID ((x :: xs).drop foldersPat.length)) = false) :
    findFolderID (x :: xs) = findFolderID xs := by
  rw [findFolderID_cons, h]; rfl

/-- Any input containing the pattern followed by an identifier character
makes the scanner succeed. -/
theorem findFolderID_of_decomp :
    ∀ (pre : List Char) (c : Char) (rest : List Char), isIDChar c = true →
      ∃ run, findFolderID (pre ++ (foldersPat ++ c :: rest)) = some run := by
  intro pre
  induction pre with
  | nil =>
    intro c rest hc
    rw [List.nil_append]
    refine ⟨_, findFolderID_pos _ ?_ ?_⟩
    · rw [List.isPrefixOf_iff_prefix]; exact ⟨c :: rest, rfl⟩
    · rw [List.drop_left]; simpa [headIsID] using hc
  | cons x pre ih =>
    intro c rest hc
    rw [List.cons_append]
    cases hg : (foldersPat.isPrefixOf (x :: (pre ++ (foldersPat ++ c :: rest))) &&
        headIsID ((x :: (pre ++ (foldersPat ++ c :: rest))).drop foldersPat.length)) with
    | true =>
      rw [Bool.and_eq_true] at hg
      exact ⟨_, findFolderID_pos _ hg.1 hg.2⟩
    | false =>
      rw [findFolderID_neg x _ hg]
      exact ih c rest hc

/-- A successful scan yields a non-empty all-identifier run captured at the
leftmost matching position, with a non-identifier boundary after the run. -/
theorem findFolderID_decomp :
    ∀ (s run : List Char), findFolderID s = some run →
      run ≠ [] ∧ (∀ ch ∈ run, isIDChar ch = true) ∧
      ∃ pre rest, s = pre ++ foldersPat ++ run ++ rest ∧ headIsID rest = false ∧
        ∀ pre2 c2 rest2, s = pre2 ++ foldersPat ++ c2 :: rest2 →
          isIDChar c2 = true → pre.length ≤ pre2.length := by
  intro s
  induction s with
  | nil => intro run h; cases h
  | cons x xs ih =>
    intro run h
    cases hg : (foldersPat.isPrefixOf (x :: xs) &&
        headIsID ((x :: xs).drop foldersPat.length)) with
    | true =>
      rw [Bool.and_eq_true] at hg
      obtain ⟨h1, h2⟩ := hg
      rw [findFolderID_pos (x :: xs) h1 h2] at h
      injection h with hrun
      obtain ⟨t, ht⟩ := List.isPrefixOf_iff_prefix.mp h1
      have hdrop : (x :: xs).drop foldersPat.length = t := by
        rw [← ht, List.drop_left]
      rw [hdrop] at h2 hrun
      obtain ⟨hall, rest, hteq, hrest⟩ := takeIDRun_decomp t
      subst hrun
      refine ⟨takeIDRun_ne_nil t h2, hall, [], rest, ?_, hrest, ?_⟩
      · rw [List.nil_append, List.append_assoc, ← hteq]
        exact ht.symm
      · intro pre2 c2 rest2 _ _
        exact Nat.zero_le _
    | false =>
      rw [findFolderID_neg x xs hg] at h
      obtain ⟨hne, hall, pre, rest, heq, hrest, hmin⟩ := ih run h
      refine ⟨hne, hall, x :: pre, rest, ?_, hrest, ?_⟩
      · simp only [List.cons_append]
        rw [heq]
      · intro pre2 c2 rest2 heq2 hc2
        cases pre2 with
        | nil =>
          exfalso
          rw [List.nil_append] at heq2
          have h1 : foldersPat.isPrefixOf (x :: xs) = true := by
            rw [heq2, List.isPrefixOf_iff_prefix]; exact ⟨c2 :: rest2, rfl⟩
          have h2 : headIsID ((x :: xs).drop foldersPat.length) = true := by
            rw [heq2, List.drop_left]; simpa [headIsID] using hc2
          rw [h1, h2] at hg; cases hg
        | cons y pre2 =>
          simp only [List.cons_append] at heq2
          injection heq2 with hxy hxs
          simp only [List.length_cons]
          exact Nat.succ_le_succ (hmin pre2 c2 rest2 hxs hc2)

/-- ExtractFolderID succeeds exactly as the character-level scanner does. -/
theorem ExtractFolderID_ok_iff (url id : String) :
    ExtractFolderID url = .ok id ↔ findFolderID url.data = some id.data := by
  unfold ExtractFolderID
  cases hf : findFolderID url.data with
  | none =>
    constructor
    · intro h; cases h
    · intro h; cases h
  | some run =>
    constructor
    · intro h
      injection h with h2
      rw [← h2]
    · intro h
      injection h with h2
      rw [h2]

/-- Claim C9: ExtractFolderID returns an identifier exactly when the URL
contains a segment /folders/<id> with <id> a non-empty run of alphanumeric,
hyphen or underscore characters; it returns the run at the first such
position (greedy: bounded by the next non-identifier character); a URL with
no such segment yields a per-root error that joins the other roots' errors
without discarding succeeding roots' files. -/
theorem claimC9_extractFolderID_characterization (url : String) :
    ((∃ id, ExtractFolderID url = .ok id) ↔
       ∃ pre c rest, url.data = pre ++ foldersPat ++ c :: rest ∧ isIDChar c = true)
    ∧ (∀ id, ExtractFolderID url = .ok id →
         id.data ≠ [] ∧ (∀ ch ∈ id.data, isIDChar ch = true) ∧
         ∃ pre rest, url.data = pre ++ foldersPat ++ id.data ++ rest ∧
           headIsID rest = false ∧
           ∀ pre2 c2 rest2, url.data = pre2 ++ foldersPat ++ c2 :: rest2 →
             isIDChar c2 = true → pre.length ≤ pre2.length)
    ∧ (∀ e, ExtractFolderID url = .error e →
         e = "could not extract folder ID from URL: " ++ url)
    ∧ (∀ (env : DriveEnv) (urls : List String) (m : Nat) (u e : String),
         u ∈ activeURLs urls → ExtractFolderID u = .error e →
         e ∈ rootErrors env urls m ∧
         ∀ v files, v ∈ activeURLs urls → rootOutcome env m v = .ok files →
           ∀ f ∈ files, f ∈ (ListFilesFromFoldersWithDepth env urls m).1) := by
  refine ⟨⟨?_, ?_⟩, ?_, ?_, ?_⟩
  · rintro ⟨id, hid⟩
    have hf := (ExtractFolderID_ok_iff url id).mp hid
    obtain ⟨hne, hall, pre, rest, heq, _, _⟩ := findFolderID_decomp url.data id.data hf
    cases hdata : id.data with
    | nil => exact absurd hdata hne
    | cons c run2 =>
      rw [hdata] at heq hall
      refine ⟨pre, c, run2 ++ rest, ?_, hall c (List.mem_cons_self ..)⟩
      rw [heq]
      simp [List.append_assoc]
  · rintro ⟨pre, c, rest, heq, hc⟩
    have heq2 : url.data = pre ++ (foldersPat ++ c :: rest) := by
      rw [heq, List.append_assoc]
    obtain ⟨run, hrun⟩ := findFolderID_of_decomp pre c rest hc
    rw [← heq2] at hrun
    exact ⟨String.mk run, (ExtractFolderID_ok_iff url (String.mk run)).mpr hrun⟩
  · intro id hid
    exact findFolderID_decomp url.data id.data ((ExtractFolderID_ok_iff url id).mp hid)
  · intro e he
    unfold ExtractFolderID at he
    cases hf : findFolderID url.data with
    | some run => rw [hf] at he; cases he
    | none =>
      rw [hf] at he
      injection he with h2
      exact h2.symm
  · intro env urls m u e hu herr
    have hro : rootOutcome env m u = .error e := by
      unfold rootOutcome; rw [herr]
    refine ⟨(mem_rootErrors_iff env urls m e).mpr ⟨u, hu, hro⟩, ?_⟩
    intro v files hv hok f hf
    rw [aggregator_fst]
    exact mem_rootFiles_of_ok env m urls v files f hv hok hf

/-- Witness for claim C9: the identifier abc-1_Z is extracted from a real
folder URL with all the stated properties, and the malformed root badurl
contributes only a per-root error on envWalk. -/
theorem claimC9_witness :
    (("abc-1_Z" : String).data ≠ [] ∧
      (∀ ch ∈ ("abc-1_Z" : String).data, isIDChar ch = true) ∧
      ∃ pre rest,
        ("https://drive.google.com/drive/folders/abc-1_Z?x=1" : String).data =
          pre ++ foldersPat ++ ("abc-1_Z" : String).data ++ rest ∧
        headIsID rest = false ∧
        ∀ pre2 c2 rest2,
          ("https://drive.google.com/drive/folders/abc-1_Z?x=1" : String).data =
            pre2 ++ foldersPat ++ c2 :: rest2 →
          isIDChar c2 = true → pre.length ≤ pre2.length)
    ∧ ("could not extract folder ID from URL: badurl" ∈ rootErrors envWalk urlsW 2 ∧
       ∀ v files, v ∈ activeURLs urlsW → rootOutcome envWalk 2 v = .ok files →
         ∀ f ∈ files, f ∈ (ListFilesFromFoldersWithDepth envWalk urlsW 2).1) :=
  ⟨(claimC9_extractFolderID_characterization
      "https://drive.google.com/drive/folders/abc-1_Z?x=1").2.1 "abc-1_Z" (by rfl),
   (claimC9_extractFolderID_characterization "badurl").2.2.2 envWalk urlsW 2 "badurl"
     "could not extract folder ID from URL: badurl" (by decide) (by rfl)⟩

/-! ## Filter lemmas -/

/-- The Go accumulation loop of FilterFiles is List.filter with the
match-any-term predicate. -/
theorem filterFilesLoop_eq_filter (terms : List String) (files : List DriveFile) :
    filterFilesLoop terms files =
      files.filter (fun f => matchesAnyTerm f.Name terms) := by
  induction files with
  | nil => rfl
  | cons f rest ih =>
    simp only [filterFilesLoop, List.filter_cons]
    cases hm : matchesAnyTerm f.Name terms with
    | false => simp [hm, ih]
    | true => simp [hm, ih]

/-- Claim C7: FilterFiles with empty terms is the identity; otherwise it is
exactly the order-preserving subsequence of files whose case-folded name
contains at least one case-folded whitespace-trimmed term as a substring
(OR semantics across terms). -/
theorem claimC7_filter_is_identity_or_matching_subsequence
    (files : List DriveFile) (terms : List String) :
    (terms = [] → FilterFiles files terms = files)
    ∧ List.Sublist (FilterFiles files terms) files
    ∧ (terms ≠ [] →
        FilterFiles files terms = files.filter (fun f => matchesAnyTerm f.Name terms))
    ∧ (terms ≠ [] → ∀ f, f ∈ FilterFiles files terms ↔
        f ∈ files ∧ matchesAnyTerm f.Name terms = true) := by
  have hfe : terms ≠ [] →
      FilterFiles files terms = files.filter (fun f => matchesAnyTerm f.Name terms) := by
    intro h
    unfold FilterFiles
    rw [if_neg (fun hl => h (List.length_eq_zero.mp hl))]
    exact filterFilesLoop_eq_filter terms files
  refine ⟨?_, ?_, hfe, ?_⟩
  · intro h; subst h; rfl
  · cases terms with
    | nil => exact List.Sublist.refl files
    | cons t ts =>
      rw [hfe (by simp)]
      exact List.filter_sublist files
  · intro h f
    rw [hfe h]
    exact List.mem_filter

/-- Witness for claim C7: the one-term filter on two concrete records equals
the filter of the match predicate, and membership is characterized by it. -/
theorem claimC7_witness :
    FilterFiles [fileReport, fileNotes] ["REP"] =
      [fileReport, fileNotes].filter (fun f => matchesAnyTerm f.Name ["REP"])
    ∧ (fileReport ∈ FilterFiles [fileReport, fileNotes] ["REP"] ↔
        fileReport ∈ [fileReport, fileNotes] ∧
          matchesAnyTerm fileReport.Name ["REP"] = true) :=
  ⟨(claimC7_filter_is_identity_or_matching_subsequence
      [fileReport, fileNotes] ["REP"]).2.2.1 (by decide),
   (claimC7_filter_is_identity_or_matching_subsequence
      [fileReport, fileNotes] ["REP"]).2.2.2 (by decide) fileReport⟩

/-! ## Download lemmas -/

/-- Chunk streams never deliver negatively many bytes. -/
theorem sumChunks_nonneg : ∀ (l : List Nat), 0 ≤ sumChunks l := by
  intro l
  induction l with
  | nil => exact le_refl 0
  | cons n rest ih => simp only [sumChunks]; omega

/-- Every incremental update carries the metadata total, is non-terminal, and
its cumulative count lies between the entry count and entry count plus the
stream's remaining bytes. -/
theorem progressEvents_mem (fid fname : String) (total : Int) :
    ∀ (chunks : List Nat) (acc : Int) (e : DownloadProgress),
      e ∈ progressEvents fid fname total acc chunks →
      e.TotalBytes = total ∧ e.Done = false ∧ e.Skipped = false ∧
      acc ≤ e.BytesLoaded ∧ e.BytesLoaded ≤ acc + sumChunks chunks := by
  intro chunks
  induction chunks with
  | nil => intro acc e he; simp [progressEvents] at he
  | cons n rest ih =>
    intro acc e he
    have hsum : sumChunks (n :: rest) = (n : Int) + sumChunks rest := rfl
    have hrest := sumChunks_nonneg rest
    by_cases hn : 0 < n
    · rw [progressEvents, if_pos hn] at he
      rcases List.mem_cons.mp he with rfl | h2
      · refine ⟨rfl, rfl, rfl, ?_, ?_⟩
        · dsimp only
          omega
        · dsimp only
          rw [hsum]
          omega
      · obtain ⟨h1, h2d, h2s, hlo, hhi⟩ := ih (acc + (n : Int)) e h2
        refine ⟨h1, h2d, h2s, by omega, ?_⟩
        rw [hsum]
        omega
    · rw [progressEvents, if_neg hn] at he
      obtain ⟨h1, h2d, h2s, hlo, hhi⟩ := ih (acc + (n : Int)) e he
      refine ⟨h1, h2d, h2s, by omega, ?_⟩
      rw [hsum]
      omega

/-- The incremental updates are monotonically non-decreasing. -/
theorem progressEvents_chain (fid fname : String) (total : Int) :
    ∀ (chunks : List Nat) (acc : Int),
      List.Chain' (fun a b => a.BytesLoaded ≤ b.BytesLoaded)
        (progressEvents fid fname total acc chunks) := by
  intro chunks
  induction chunks with
  | nil => intro acc; simp [progressEvents]
  | cons n rest ih =>
    intro acc
    by_cases hn : 0 < n
    · rw [progressEvents, if_pos hn]
      rw [List.chain'_cons']
      refine ⟨?_, ih (acc + (n : Int))⟩
      intro b hb
      exact (progressEvents_mem fid fname total rest (acc + (n : Int)) b
        (List.mem_of_mem_head? hb)).2.2.2.1
    · rw [progressEvents, if_neg hn]
      exact ih (acc + (n : Int))

/-- Dropping the last element of a chain keeps it a chain. -/
theorem chain_dropLast {α : Type} (R : α → α → Prop) :
    ∀ (l : List α), List.Chain' R l → List.Chain' R l.dropLast := by
  intro l
  induction l with
  | nil => intro h; exact h
  | cons a t ih =>
    intro h
    cases t with
    | nil => simp
    | cons b t2 =>
      rw [List.chain'_cons'] at h
      obtain ⟨hR, ht⟩ := h
      show List.Chain' R (a :: (b :: t2).dropLast)
      rw [List.chain'_cons']
      refine ⟨?_, ih ht⟩
      intro c hc
      cases t2 with
      | nil => simp at hc
      | cons d t3 =>
        have hcb : b = c := by simpa using hc
        subst hcb
        exact hR b (by simp)

/-- The skip path of DownloadFile: an existing destination of matching size
produces the single skip update, no error and no write. -/
theorem DownloadFile_skip (env : DlEnv) (file : DriveFile) (destDir : String)
    (h : env.stat (destPathFor destDir file) = some file.Size) :
    DownloadFile env file destDir = ⟨[skipEvent file], none, none⟩ := by
  unfold DownloadFile
  rw [h]
  simp

/-- The progress-stream properties of the transfer phase. -/
theorem transferPhase_props (env : DlEnv) (file : DriveFile) (destDir : String) :
    List.Chain' (fun a b => a.BytesLoaded ≤ b.BytesLoaded)
      (transferPhase env file destDir).events.dropLast
    ∧ ((∀ chunks re, env.body file.ID = BodyFetch.stream chunks re →
          sumChunks chunks ≤ file.Size) →
        (∀ e ∈ (transferPhase env file destDir).events, e.BytesLoaded ≤ e.TotalBytes)
        ∧ List.Chain' (fun a b => a.BytesLoaded ≤ b.BytesLoaded)
            (transferPhase env file destDir).events)
    ∧ ((transferPhase env file destDir).error = none →
        ∃ es e, (transferPhase env file destDir).events = es ++ [e] ∧
          e.Done = true ∧ e.BytesLoaded = e.TotalBytes ∧ e.BytesLoaded = file.Size) := by
  unfold transferPhase
  cases hbody : env.body file.ID with
  | fail e => refine ⟨by simp, fun _ => ⟨by simp, by simp⟩, by simp⟩
  | stream chunks readErr =>
    by_cases hmk : file.Path ≠ "" ∧ env.mkdirAllOK (fullDestDirFor destDir file) = false
    · simp only [if_pos hmk]
      exact ⟨by simp, fun _ => ⟨by simp, by simp⟩, by simp⟩
    · simp only [if_neg hmk]
      by_cases hcr : env.createOK (destPathFor destDir file) = false
      · simp only [if_pos hcr]
        exact ⟨by simp, fun _ => ⟨by simp, by simp⟩, by simp⟩
      · simp only [if_neg hcr]
        cases readErr with
        | some e =>
          refine ⟨?_, ?_, by simp⟩
          · exact chain_dropLast _ _
              (progressEvents_chain file.ID file.DisplayName file.Size chunks 0)
          · intro hb
            have hsum := hb chunks (some e) rfl
            refine ⟨?_, progressEvents_chain file.ID file.DisplayName file.Size chunks 0⟩
            intro ev hev
            obtain ⟨h1, _, _, _, hhi⟩ :=
              progressEvents_mem file.ID file.DisplayName file.Size chunks 0 ev hev
            rw [h1]
            omega
        | none =>
          refine ⟨?_, ?_, ?_⟩
          · simp only [List.dropLast_concat]
            exact progressEvents_chain file.ID file.DisplayName file.Size chunks 0
          · intro hb
            have hsum := hb chunks none rfl
            constructor
            · intro ev hev
              rcases List.mem_append.mp hev with hl | hr
              · obtain ⟨h1, _, _, _, hhi⟩ :=
                  progressEvents_mem file.ID file.DisplayName file.Size chunks 0 ev hl
                rw [h1]
                omega
              · have : ev = finalEvent file := by simpa using hr
                subst this
                exact le_refl _
            · rw [List.chain'_append]
              refine ⟨progressEvents_chain file.ID file.DisplayName file.Size chunks 0,
                List.chain'_singleton _, ?_⟩
              intro x hx y hy
              have hyf : finalEvent file = y := by simpa using hy
              subst hyf
              obtain ⟨_, _, _, _, hhi⟩ :=
                progressEvents_mem file.ID file.DisplayName file.Size chunks 0 x
                  (List.mem_of_mem_getLast? hx)
              show x.BytesLoaded ≤ file.Size
              omega
          · intro _
            exact ⟨progressEvents file.ID file.DisplayName file.Size 0 chunks,
              finalEvent file, rfl, rfl, rfl, rfl⟩

/-- Claim C4 (amended): a destination that already exists with exactly the
record's size makes DownloadFile emit the single terminal skip update
(skipped, done, bytesTransferred = size) with no transfer and no write; and a
successful run that wrote exactly the record's size bytes makes the second
run against the resulting filesystem skip.  (The unamended claim fails when
the body stream's length differs from the metadata size; see the
counterexample.) -/
theorem claimC4_skip_rule_and_conditional_idempotence (env : DlEnv)
    (file : DriveFile) (destDir : String) :
    ((skipEvent file).Skipped = true ∧ (skipEvent file).Done = true ∧
      (skipEvent file).BytesLoaded = file.Size ∧
      (skipEvent file).TotalBytes = file.Size)
    ∧ (env.stat (destPathFor destDir file) = some file.Size →
        DownloadFile env file destDir = ⟨[skipEvent file], none, none⟩)
    ∧ (∀ evs w, DownloadFile env file destDir = ⟨evs, none, some w⟩ →
        w = file.Size →
        DownloadFile (envAfter env file destDir) file destDir =
          ⟨[skipEvent file], none, none⟩) := by
  refine ⟨⟨rfl, rfl, rfl, rfl⟩, DownloadFile_skip env file destDir, ?_⟩
  intro evs w hrun hw
  apply DownloadFile_skip
  show statAfter env file destDir (destPathFor destDir file) = some file.Size
  unfold statAfter
  rw [hrun]
  simp [hw]

/-- Witness for claim C4: on a filesystem whose destination already holds a
5-byte file for the 5-byte record, the download is skipped outright. -/
theorem claimC4_witness :
    DownloadFile
      { benignDl with stat := fun p =>
          if p = destPathFor "out" benignFile then some benignFile.Size else none }
      benignFile "out" = ⟨[skipEvent benignFile], none, none⟩ :=
  (claimC4_skip_rule_and_conditional_idempotence
    { benignDl with stat := fun p =>
        if p = destPathFor "out" benignFile then some benignFile.Size else none }
    benignFile "out").2.1 (by simp)

/-- Counterexample for claim C4 as stated: with a body that delivers 2 bytes
for a record declaring size 1, the first run completes without error, yet the
second run against the same destination re-transfers — no update of the
second run is a skip. -/
theorem claimC4_counterexample :
    (DownloadFile cexEnv cexFile "out").error = none
    ∧ (DownloadFile cexEnv cexFile "out").written = some 2
    ∧ (∀ e ∈ (DownloadFile (envAfter cexEnv cexFile "out") cexFile "out").events,
        e.Skipped = false)
    ∧ (DownloadFile (envAfter cexEnv cexFile "out") cexFile "out").events ≠ [] := by
  decide

/-- Claim C5 (amended): the non-terminal updates of one file's download are
always monotonically non-decreasing in bytesTransferred; provided the body
delivers at most the record's size bytes in total, every update satisfies
bytesTransferred ≤ totalBytes and the whole update sequence including the
terminal one is monotone; the terminal update of an error-free download
always has the completion flag and bytesTransferred = totalBytes = size.
(The unamended "bytesTransferred ≤ totalBytes always" fails when the body is
longer than the metadata size; see the counterexample.) -/
theorem claimC5_progress_stream_invariants (env : DlEnv) (file : DriveFile)
    (destDir : String) :
    List.Chain' (fun a b => a.BytesLoaded ≤ b.BytesLoaded)
      (DownloadFile env file destDir).events.dropLast
    ∧ ((∀ chunks re, env.body file.ID = BodyFetch.stream chunks re →
          sumChunks chunks ≤ file.Size) →
        (∀ e ∈ (DownloadFile env file destDir).events, e.BytesLoaded ≤ e.TotalBytes)
        ∧ List.Chain' (fun a b => a.BytesLoaded ≤ b.BytesLoaded)
            (DownloadFile env file destDir).events)
    ∧ ((DownloadFile env file destDir).error = none →
        ∃ es e, (DownloadFile env file destDir).events = es ++ [e] ∧
          e.Done = true ∧ e.BytesLoaded = e.TotalBytes ∧ e.BytesLoaded = file.Size) := by
  unfold DownloadFile
  cases hstat : env.stat (destPathFor destDir file) with
  | some sz =>
    by_cases hsz : sz = file.Size
    · simp only [if_pos hsz]
      refine ⟨by simp, fun _ => ⟨?_, by simp⟩, fun _ => ⟨[], skipEvent file, rfl, rfl, rfl, rfl⟩⟩
      intro e he
      have : e = skipEvent file := by simpa using he
      subst this
      exact le_refl _
    · simp only [if_neg hsz]
      exact transferPhase_props env file destDir
  | none => exact transferPhase_props env file destDir

/-- Witness for claim C5: on the well-behaved 5-byte stream every update is
within bounds, the sequence is monotone and the terminal update completes at
the full size. -/
theorem claimC5_witness :
    (∀ e ∈ (DownloadFile benignDl benignFile "out").events,
        e.BytesLoaded ≤ e.TotalBytes)
    ∧ List.Chain' (fun a b => a.BytesLoaded ≤ b.BytesLoaded)
        (DownloadFile benignDl benignFile "out").events
    ∧ ∃ es e, (DownloadFile benignDl benignFile "out").events = es ++ [e] ∧
        e.Done = true ∧ e.BytesLoaded = e.TotalBytes ∧
        e.BytesLoaded = benignFile.Size :=
  have hb : ∀ chunks re, benignDl.body benignFile.ID = BodyFetch.stream chunks re →
      sumChunks chunks ≤ benignFile.Size := by
    intro chunks re h
    have h2 : BodyFetch.stream [2, 3] none = BodyFetch.stream chunks re := h
    injection h2 with hc hr
    subst hc
    decide
  ⟨((claimC5_progress_stream_invariants benignDl benignFile "out").2.1 hb).1,
   ((claimC5_progress_stream_invariants benignDl benignFile "out").2.1 hb).2,
   (claimC5_progress_stream_invariants benignDl benignFile "out").2.2 (by rfl)⟩

/-- Counterexample for claim C5 as stated: when the body delivers 2 bytes for
a record declaring size 1, an update exceeds totalBytes and the full update
sequence is not monotone (the terminal update reports the smaller metadata
size). -/
theorem claimC5_counterexample :
    (∃ e ∈ (DownloadFile cexEnv cexFile "out").events, e.TotalBytes < e.BytesLoaded)
    ∧ ¬ List.Chain' (fun a b => a.BytesLoaded ≤ b.BytesLoaded)
        (DownloadFile cexEnv cexFile "out").events := by
  have hev : (DownloadFile cexEnv cexFile "out").events =
      [⟨"f", "n.bin", 2, 1, false, false, none⟩,
       ⟨"f", "n.bin", 1, 1, true, false, none⟩] := rfl
  constructor
  · rw [hev]
    exact ⟨⟨"f", "n.bin", 2, 1, false, false, none⟩, List.mem_cons_self .., by decide⟩
  · rw [hev]
    intro h
    rw [List.chain'_pair] at h
    exact absurd h (by decide)

/-- Claim C10: DownloadFiles with maxConcurrent ≤ 0 does not fail and behaves
exactly as with maxConcurrent = 4 — the admission gate is created with
capacity 4. -/
theorem claimC10_nonpositive_concurrency_defaults_to_four (env : DlEnv)
    (files : List DriveFile) (destDir : String) (k : Int) (h : k ≤ 0) :
    gateCapacity k = 4 ∧
    DownloadFiles env files destDir k = DownloadFiles env files destDir 4 := by
  have hg : gateCapacity k = 4 := if_pos h
  have h4 : gateCapacity 4 = 4 := by decide
  refine ⟨hg, ?_⟩
  unfold DownloadFiles
  rw [hg, h4]

/-- Witness for claim C10 at maxConcurrent = -3 on a one-file batch. -/
theorem claimC10_witness :
    gateCapacity (-3) = 4 ∧
    DownloadFiles benignDl [benignFile] "out" (-3) =
      DownloadFiles benignDl [benignFile] "out" 4 :=
  claimC10_nonpositive_concurrency_defaults_to_four benignDl [benignFile] "out" (-3)
    (by decide)

/-! ## Gate lemmas -/

/-- Updating one slot of the task list changes a count by exactly the
difference of the predicate on the old and new values. -/
theorem countP_set (p : TaskPhase → Bool) :
    ∀ (ts : List TaskPhase) (i : Nat) (x v : TaskPhase),
      ts.get? i = some x →
      (ts.set i v).countP p + (if p x then 1 else 0) =
        ts.countP p + (if p v then 1 else 0) := by
  intro ts
  induction ts with
  | nil => intro i x v h; cases h
  | cons a t ih =>
    intro i x v h
    cases i with
    | zero =>
      injection h with hax
      subst hax
      simp only [List.set, List.countP_cons]
      cases hpa : p a <;> cases hpv : p v <;> simp [hpa, hpv]
    | succ j =>
      have h2 : t.get? j = some x := h
      have := ih j x v h2
      simp only [List.set, List.countP_cons]
      cases hpa : p a <;> cases hpx : p x <;> cases hpv : p v <;>
        simp [hpa, hpx, hpv] at this ⊢ <;> omega

/-- A freshly dispatched batch has no running transfer. -/
theorem runningCount_initTasks (n : Nat) : runningCount (initTasks n) = 0 := by
  induction n with
  | zero => rfl
  | succ k ih =>
    unfold initTasks runningCount at *
    rw [List.replicate_succ, List.countP_cons]
    simp [holdsSlot, ih]

/-- The gate invariant: scheduler steps preserve the concurrency bound. -/
theorem gate_invariant (K : Nat) :
    ∀ (start ts : List TaskPhase), GateReach K start ts →
      runningCount start ≤ K → runningCount ts ≤ K := by
  intro start ts h
  induction h with
  | refl => intro h0; exact h0
  | @step mid next hreach hstep ih =>
    intro h0
    have hmid := ih h0
    cases hstep with
    | acquire i hi hK =>
      have hc := countP_set holdsSlot mid i TaskPhase.idle TaskPhase.running hi
      simp [holdsSlot] at hc
      unfold runningCount at hmid hK ⊢
      omega
    | release i failed hi =>
      have hc := countP_set holdsSlot mid i TaskPhase.running (TaskPhase.finished failed) hi
      simp [holdsSlot] at hc
      unfold runningCount at hmid ⊢
      omega

/-- Claim C6: under the admission gate of DownloadFiles (capacity
gateCapacity maxConcurrent; acquire-before-transfer, release on every exit
path), no reachable schedule of an N-task batch ever has more than the
capacity many transfers in the running (non-terminal, slot-holding) state. -/
theorem claimC6_admission_gate_bounds_running_transfers (mc : Int) (n : Nat)
    (ts : List TaskPhase)
    (h : GateReach (gateCapacity mc).toNat (initTasks n) ts) :
    runningCount ts ≤ (gateCapacity mc).toNat :=
  gate_invariant (gateCapacity mc).toNat (initTasks n) ts h
    (by rw [runningCount_initTasks]; exact Nat.zero_le _)

/-- Witness for claim C6: with capacity 1 and two dispatched tasks, the state
after one acquire step is reachable and within the bound. -/
theorem claimC6_witness :
    runningCount ((initTasks 2).set 0 TaskPhase.running) ≤ (gateCapacity 1).toNat :=
  claimC6_admission_gate_bounds_running_transfers 1 2
    ((initTasks 2).set 0 TaskPhase.running)
    (GateReach.step GateReach.refl
      (GateStep.acquire (initTasks 2) 0 (by decide) (by decide)))
